import Mathlib

set_option maxRecDepth 10000
set_option maxHeartbeats 1000000

/-!
Verification development for the EUGLOH course-events scraper
(`check_events.py`).  The Python source is shallowly embedded: strings are
lists of characters, the pieces of `urllib.parse` that the script calls are
translated from CPython's `Lib/urllib/parse.py`, file-system and network
effects are made explicit (an `FS` record and `Bool` success flags), and
exceptions become `Except`.
-/

namespace CheckEvents

/-- Python strings are modelled as lists of characters. -/
abbrev Str : Type := List Char

/-- Fuel-based worker for `splitOnSub` (structural recursion on the fuel so
that the kernel can evaluate it; with fuel ≥ `s.length` the `0` case is
never reached). -/
def splitOnSubF (p : Char) (ps : Str) : Nat → Str → List Str
  | 0, s => [s]
  | _ + 1, [] => [[]]
  | fuel + 1, c :: rest =>
    if (p :: ps).isPrefixOf (c :: rest) then
      [] :: splitOnSubF p ps fuel (rest.drop ps.length)
    else
      match splitOnSubF p ps fuel rest with
      | [] => [[c]]
      | r :: rs => (c :: r) :: rs

/-- `s.split(pat)` for a non-empty separator `pat = p :: ps`, scanning left
to right, exactly like Python `str.split` with a substring separator. -/
def splitOnSub (p : Char) (ps : Str) (s : Str) : List Str :=
  splitOnSubF p ps s.length s

/-- Index of the first occurrence of the substring `pat` (Python `str.find`,
with `none` for `-1`). -/
def findSub (pat : Str) : Str → Option Nat
  | [] => if pat.isEmpty then some 0 else none
  | c :: rest =>
    if pat.isPrefixOf (c :: rest) then some 0
    else (findSub pat rest).map (· + 1)

/-- Python `r.join l`. -/
def joinSep (r : Str) : List Str → Str
  | [] => []
  | [x] => x
  | x :: y :: xs => x ++ r ++ joinSep r (y :: xs)

/-- Python `s.find(c, start)` restricted to a single character. -/
def findIdxFrom (p : Char → Bool) (s : Str) (start : Nat) : Option Nat :=
  ((s.drop start).findIdx? p).map (· + start)

/-- Python `s.rfind(c)` restricted to a single character. -/
def rfindIdx (p : Char → Bool) (s : Str) : Option Nat :=
  match s.reverse.findIdx? p with
  | some j => some (s.length - 1 - j)
  | none => none

/-! ### `urllib.parse`, as far as `check_events.py` uses it

Translated from CPython 3.11.6 `Lib/urllib/parse.py` (`urlsplit`,
`urlparse`, `urlunsplit`, `urlunparse`, `urljoin`, `_splitnetloc`,
`_splitparams`, `_check_bracketed_host`) and the pieces of
`Lib/ipaddress.py` that `_check_bracketed_host` calls (`ip_address`,
`IPv4Address`/`IPv6Address` string parsing, `_split_scope_id`).  `urlsplit`
can raise `ValueError`, so it and everything built on it return `Except`;
the exception propagates out of `normalize_url` into `extract_event_data`'s
`try/except`.  The `Except.error` payloads stand for the exception and do
not reproduce CPython's message texts (the program only prints them).  The
one remaining omission is `_checknetloc`, whose NFKC-normalization check
can only raise for a netloc containing non-ASCII characters: the model is
exact for URLs whose netloc is ASCII and silently accepts the rest. -/

/-- Characters stripped by `url.lstrip(_WHATWG_C0_CONTROL_OR_SPACE)`:
C0 controls and space (code points ≤ 0x20). -/
def isC0ControlOrSpace (c : Char) : Bool := c.toNat ≤ 32

/-- `s.lstrip(_WHATWG_C0_CONTROL_OR_SPACE)` (applied to the url). -/
def lstripC0 (s : Str) : Str := s.dropWhile isC0ControlOrSpace

/-- `s.strip(_WHATWG_C0_CONTROL_OR_SPACE)` (applied to the default scheme). -/
def stripC0 (s : Str) : Str :=
  ((s.dropWhile isC0ControlOrSpace).reverse.dropWhile isC0ControlOrSpace).reverse

/-- The `for b in _UNSAFE_URL_BYTES_TO_REMOVE: url = url.replace(b, "")`
loop: removes every tab, carriage return and newline, in that order. -/
def removeUnsafeBytes (s : Str) : Str :=
  ((s.filter (fun c => !(c == '\t'))).filter (fun c => !(c == '\r'))).filter
    (fun c => !(c == '\n'))

/-- `ipaddress._BaseV4._parse_octet` succeeds: a non-empty ASCII-decimal
string of at most 3 digits, no leading zero (except `"0"` itself), value
at most 255. -/
def parse_octet_ok (s : Str) : Bool :=
  !s.isEmpty && s.all Char.isDigit && s.length ≤ 3
    && (s == ['0'] || !(s.headD ' ' == '0'))
    && s.foldl (fun n c => n * 10 + (c.toNat - 48)) 0 ≤ 255

/-- `ipaddress.IPv4Address(s)` succeeds on the string `s`: no `/`, and
`_ip_int_from_string` finds exactly four valid octets. -/
def validIPv4Address (s : Str) : Bool :=
  !(s.contains '/') && !s.isEmpty
    && (let octets := splitOnSub '.' [] s
        octets.length == 4 && octets.all parse_octet_ok)

/-- `ipaddress._BaseV6._HEX_DIGITS` membership. -/
def isHexDigitPy (c : Char) : Bool :=
  c.isDigit || ('a' ≤ c && c ≤ 'f') || ('A' ≤ c && c ≤ 'F')

/-- `ipaddress._BaseV6._parse_hextet` succeeds: hex digits only, at most 4
of them, and non-empty (`int('', 16)` raises). -/
def parse_hextet_ok (s : Str) : Bool :=
  s.all isHexDigitPy && s.length ≤ 4 && !s.isEmpty

/-- The part-count and `::` analysis of `ipaddress._BaseV6._ip_int_from_string`
after the optional IPv4 suffix has been replaced by two hextet parts. -/
def validIPv6Parts (parts : List Str) : Bool :=
  if parts.length > 9 then false
  else
    match (List.range parts.length).filter (fun i =>
        decide (0 < i) && decide (i < parts.length - 1) && (parts.getD i []).isEmpty) with
    | [] =>
      parts.length == 8 && !(parts.headD []).isEmpty && !(parts.getLastD []).isEmpty
        && parts.all parse_hextet_ok
    | [skip_index] =>
      let parts_hi := skip_index
      let parts_lo := parts.length - skip_index - 1
      if (parts.headD []).isEmpty && !(parts_hi - 1 == 0) then false
      else if (parts.getLastD []).isEmpty && !(parts_lo - 1 == 0) then false
      else
        let parts_hi := if (parts.headD []).isEmpty then parts_hi - 1 else parts_hi
        let parts_lo := if (parts.getLastD []).isEmpty then parts_lo - 1 else parts_lo
        if 8 ≤ parts_hi + parts_lo then false
        else (parts.take parts_hi).all parse_hextet_ok
          && (parts.drop (parts.length - parts_lo)).all parse_hextet_ok
    | _ => false

/-- `ipaddress._BaseV6._ip_int_from_string` succeeds: non-empty, at least
two colons, an optional valid IPv4 suffix (converted to two hextets), then
the part analysis. -/
def validIPv6Int (s : Str) : Bool :=
  if s.isEmpty then false
  else
    let parts := splitOnSub ':' [] s
    if parts.length < 3 then false
    else if (parts.getLastD []).contains '.' then
      validIPv4Address (parts.getLastD [])
        && validIPv6Parts (parts.dropLast ++ [['0'], ['0']])
    else validIPv6Parts parts

/-- `ipaddress.IPv6Address(s)` succeeds: no `/`, `_split_scope_id` accepts
(a `%` must be followed by a non-empty scope id with no further `%`), and
the address part parses. -/
def validIPv6Address (s : Str) : Bool :=
  !(s.contains '/')
    && (match s.findIdx? (· == '%') with
        | none => validIPv6Int s
        | some i =>
          let scope := s.drop (i + 1)
          !scope.isEmpty && !(scope.contains '%') && validIPv6Int (s.take i))

/-- `urllib.parse._check_bracketed_host` succeeds (`false` means it
raises): a host starting with `v` must match `\Av[a-fA-F0-9]+\..+\Z`
(IPvFuture); otherwise `ipaddress.ip_address` must parse it and the result
must not be an `IPv4Address` (which is tried first), so the host must be a
valid IPv6 address and not a valid IPv4 address. -/
def check_bracketed_host (hostname : Str) : Bool :=
  match hostname with
  | 'v' :: rest =>
    let hexRun := rest.takeWhile isHexDigitPy
    (!hexRun.isEmpty &&
      match rest.drop hexRun.length with
      | '.' :: tl => !tl.isEmpty && tl.all (fun c => !(c == '\n'))
      | _ => false)
  | _ => !(validIPv4Address hostname) && validIPv6Address hostname

def scheme_chars : Str :=
  ("abcdefghijklmnopqrstuvwxyzABCDEFGHIJKLMNOPQRSTUVWXYZ0123456789+-.").toList

def uses_relative : List Str :=
  [("").toList, ("ftp").toList, ("http").toList, ("gopher").toList,
   ("nntp").toList, ("imap").toList, ("wais").toList, ("file").toList,
   ("https").toList, ("shttp").toList, ("mms").toList, ("prospero").toList,
   ("rtsp").toList, ("rtspu").toList, ("sftp").toList, ("svn").toList,
   ("svn+ssh").toList, ("ws").toList, ("wss").toList]

def uses_netloc : List Str :=
  [("").toList, ("ftp").toList, ("http").toList, ("gopher").toList,
   ("nntp").toList, ("telnet").toList, ("imap").toList, ("wais").toList,
   ("file").toList, ("mms").toList, ("https").toList, ("shttp").toList,
   ("snews").toList, ("prospero").toList, ("rtsp").toList, ("rtspu").toList,
   ("rsync").toList, ("svn").toList, ("svn+ssh").toList, ("sftp").toList,
   ("nfs").toList, ("git").toList, ("git+ssh").toList, ("ws").toList,
   ("wss").toList]

def uses_params : List Str :=
  [("").toList, ("ftp").toList, ("hdl").toList, ("prospero").toList,
   ("http").toList, ("imap").toList, ("https").toList, ("shttp").toList,
   ("rtsp").toList, ("rtspu").toList, ("sip").toList, ("sips").toList,
   ("mms").toList, ("sftp").toList, ("tel").toList]

structure SplitResult where
  scheme : Str
  netloc : Str
  path : Str
  query : Str
  fragment : Str
deriving DecidableEq

structure ParseResult where
  scheme : Str
  netloc : Str
  path : Str
  params : Str
  query : Str
  fragment : Str
deriving DecidableEq

instance {ε α : Type} [DecidableEq ε] [DecidableEq α] : DecidableEq (Except ε α) :=
  fun x y =>
    match x, y with
    | .error e1, .error e2 =>
      if h : e1 = e2 then .isTrue (by rw [h]) else
        .isFalse (fun hc => h (Except.error.injEq e1 e2 ▸ hc))
    | .error _, .ok _ => .isFalse (fun hc => Except.noConfusion hc)
    | .ok _, .error _ => .isFalse (fun hc => Except.noConfusion hc)
    | .ok a1, .ok a2 =>
      if h : a1 = a2 then .isTrue (by rw [h]) else
        .isFalse (fun hc => h (Except.ok.injEq a1 a2 ▸ hc))

/-- CPython `_splitnetloc(url, 2)`, applied to a `url` that starts with
`//`: the netloc runs up to the first of `/?#` at index ≥ 2. -/
def splitnetloc (url : Str) : Str × Str :=
  let rest := url.drop 2
  match rest.findIdx? (fun c => c == '/' || c == '?' || c == '#') with
  | some i => (rest.take i, rest.drop i)
  | none => (rest, [])

/-- The fragment and query splits at the end of `urlsplit` (fragment first,
then query, both at the first occurrence). -/
def splitFragmentQuery (scheme netloc url : Str) : SplitResult :=
  let (url, fragment) :=
    match url.findIdx? (· == '#') with
    | some i => (url.take i, url.drop (i + 1))
    | none => (url, [])
  let (url, query) :=
    match url.findIdx? (· == '?') with
    | some i => (url.take i, url.drop (i + 1))
    | none => (url, [])
  ⟨scheme, netloc, url, query, fragment⟩

/-- CPython `urlsplit(url, scheme, allow_fragments=True)`: WHATWG
left-strip of the url and strip of the default scheme, removal of
tab/CR/LF, scheme detection, netloc split with the unbalanced-bracket
`ValueError("Invalid IPv6 URL")` and the `_check_bracketed_host`
validation, then fragment and query splits.  (`_checknetloc` is not
modelled; see the section header.) -/
def urlsplit (url0 : Str) (defaultScheme : Str) : Except String SplitResult :=
  let url := removeUnsafeBytes (lstripC0 url0)
  let defScheme := removeUnsafeBytes (stripC0 defaultScheme)
  let (scheme, url) :=
    match url.findIdx? (· == ':') with
    | some i =>
      if 0 < i && (url.headD ' ').isAlpha
          && (url.take i).all (fun c => scheme_chars.contains c) then
        ((url.take i).map Char.toLower, url.drop (i + 1))
      else (defScheme, url)
    | none => (defScheme, url)
  if url.take 2 = ['/', '/'] then
    let (netloc, url) := splitnetloc url
    if ('[' ∈ netloc ∧ ']' ∉ netloc) ∨ (']' ∈ netloc ∧ '[' ∉ netloc) then
      .error "Invalid IPv6 URL"
    else if '[' ∈ netloc ∧ ']' ∈ netloc then
      let afterLb := netloc.drop (((netloc.findIdx? (· == '[')).getD netloc.length) + 1)
      let bracketed_host := afterLb.take ((afterLb.findIdx? (· == ']')).getD afterLb.length)
      if check_bracketed_host bracketed_host then
        .ok (splitFragmentQuery scheme netloc url)
      else
        .error "bracketed host is invalid"
    else
      .ok (splitFragmentQuery scheme netloc url)
  else
    .ok (splitFragmentQuery scheme [] url)

/-- CPython `_splitparams`. -/
def splitparams (url : Str) : Str × Str :=
  match rfindIdx (· == '/') url with
  | some r =>
    match findIdxFrom (· == ';') url r with
    | some i => (url.take i, url.drop (i + 1))
    | none => (url, [])
  | none =>
    match url.findIdx? (· == ';') with
    | some i => (url.take i, url.drop (i + 1))
    | none => (url, [])

/-- CPython `urlparse(url, scheme, allow_fragments=True)`: propagates a
`urlsplit` exception, otherwise splits the params off the path. -/
def urlparse (url : Str) (defaultScheme : Str) : Except String ParseResult :=
  match urlsplit url defaultScheme with
  | .error e => .error e
  | .ok sr =>
    if sr.scheme ∈ uses_params ∧ sr.path.contains ';' then
      let (p, ps) := splitparams sr.path
      .ok ⟨sr.scheme, sr.netloc, p, ps, sr.query, sr.fragment⟩
    else
      .ok ⟨sr.scheme, sr.netloc, sr.path, [], sr.query, sr.fragment⟩

/-- CPython `urlunsplit`. -/
def urlunsplit (c : SplitResult) : Str :=
  let url := c.path
  let url :=
    if c.netloc ≠ [] ∨ url.take 2 = ['/', '/'] then
      '/' :: '/' :: (c.netloc ++ (if url ≠ [] ∧ url.take 1 ≠ ['/'] then '/' :: url else url))
    else url
  let url := if c.scheme ≠ [] then c.scheme ++ ':' :: url else url
  let url := if c.query ≠ [] then url ++ '?' :: c.query else url
  let url := if c.fragment ≠ [] then url ++ '#' :: c.fragment else url
  url

/-- CPython `urlunparse`. -/
def urlunparse (c : ParseResult) : Str :=
  let url := if c.params ≠ [] then c.path ++ ';' :: c.params else c.path
  urlunsplit ⟨c.scheme, c.netloc, url, c.query, c.fragment⟩

/-- CPython `urljoin`: `segments[1:-1] = filter(None, segments[1:-1])`. -/
def joinFilterMiddle (segs : List Str) : List Str :=
  match segs with
  | [] => []
  | [x] => [x]
  | x :: y :: rest =>
    x :: (((y :: rest).dropLast).filter (fun s => !s.isEmpty))
      ++ [(y :: rest).getLast (by simp)]

/-- CPython `urljoin`: the `resolved_path` accumulation loop (a `pop` on an
empty list is swallowed by `try ... except IndexError: pass`). -/
def resolveSegments (segs : List Str) : List Str :=
  segs.foldl
    (fun acc seg =>
      if seg = ['.', '.'] then acc.dropLast
      else if seg = ['.'] then acc
      else acc ++ [seg])
    []

/-- CPython `urljoin(base, url, allow_fragments=True)`: a `ValueError`
raised by either internal `urlparse` propagates (there is no `try` in
`urljoin`). -/
def urljoin (base url : Str) : Except String Str :=
  if base = [] then .ok url
  else if url = [] then .ok base
  else
    match urlparse base [] with
    | .error e => .error e
    | .ok b =>
      match urlparse url b.scheme with
      | .error e => .error e
      | .ok u =>
        if u.scheme ≠ b.scheme ∨ u.scheme ∉ uses_relative then .ok url
        else if u.scheme ∈ uses_netloc ∧ u.netloc ≠ [] then
          .ok (urlunparse ⟨u.scheme, u.netloc, u.path, u.params, u.query, u.fragment⟩)
        else
          let netloc := if u.scheme ∈ uses_netloc then b.netloc else u.netloc
          if u.path = [] ∧ u.params = [] then
            .ok (urlunparse ⟨u.scheme, netloc, b.path, b.params,
              (if u.query = [] then b.query else u.query), u.fragment⟩)
          else
            let base_parts :=
              let bp := splitOnSub '/' [] b.path
              if bp.getLast? ≠ some [] then bp.dropLast else bp
            let segments :=
              if u.path.take 1 = ['/'] then splitOnSub '/' [] u.path
              else joinFilterMiddle (base_parts ++ splitOnSub '/' [] u.path)
            let resolved := resolveSegments segments
            let resolved :=
              if segments.getLast? = some ['.'] ∨ segments.getLast? = some ['.', '.'] then
                resolved ++ [[]]
              else resolved
            let joined := joinSep ['/'] resolved
            .ok (urlunparse ⟨u.scheme, netloc, (if joined = [] then ['/'] else joined),
              u.params, u.query, u.fragment⟩)

/-- `normalize_url` from `check_events.py` (lines 46–55): make the link
absolute against the base URL, then strip params, query and fragment for a
stable identity, returning `(normalized, absolute_url)`.  A `ValueError`
from `urljoin`/`urlparse` propagates to the caller (`extract_event_data`
catches it). -/
def normalize_url (url base_url : Str) : Except String (Str × Str) :=
  match urljoin base_url url with
  | .error e => .error e
  | .ok absolute_url =>
    match urlparse absolute_url [] with
    | .error e => .error e
    | .ok parsed =>
      .ok (urlunparse ⟨parsed.scheme, parsed.netloc, parsed.path, [], [], []⟩,
        absolute_url)

/-! ### The candidate link nodes and `extract_event_data`

The markup-query collaborator (BeautifulSoup) is embedded as data: an element
records the attribute values `get` can return and its stripped text, and each
ancestor of a candidate link node records the *result* of
`ancestor.select_one(TITLE_SELECTOR)` / `ancestor.select_one(DATE_SELECTOR)`
under the configured selectors.  The `Except` error case models a query that
raises. -/

structure Elem where
  /-- `elem.get('datetime')`: `none` when the attribute is missing. -/
  datetimeAttr : Option String
  /-- `elem.get_text(strip=True)`. -/
  text : String
deriving DecidableEq

structure Ancestor where
  /-- Result of `ancestor.select_one(TITLE_SELECTOR)`. -/
  titleSel : Except String (Option Elem)
  /-- Result of `ancestor.select_one(DATE_SELECTOR)`. -/
  dateSel : Except String (Option Elem)

structure LinkElem where
  /-- `link_element.get('href', '')`: `none` when the attribute is missing. -/
  href : Option String
  /-- `link_element.get_text(strip=True)`. -/
  text : String
  /-- `link_element.parents`, nearest enclosing element first. -/
  parents : List Ancestor

/-- The dict `{'id': ..., 'link': ..., 'title': ..., 'date': ...}` built by
`extract_event_data`. -/
structure EventDict where
  id : String
  link : String
  title : String
  date : String
deriving DecidableEq

/-- The `for ancestor in link_element.parents` loop searching for the title:
the first ancestor whose `select_one(TITLE_SELECTOR)` is truthy wins and its
stripped text is taken (the loop `break`s even when that text is empty). -/
def findTitleText : List Ancestor → Except String (Option String)
  | [] => .ok none
  | a :: rest =>
    match a.titleSel with
    | .error e => .error e
    | .ok none => findTitleText rest
    | .ok (some el) => .ok (some el.text)

/-- The date loop: on the first truthy `select_one(DATE_SELECTOR)` result,
`date_elem.get('datetime') or date_elem.get_text(strip=True)` (a missing or
empty `datetime` attribute falls through to the text). -/
def findDateText : List Ancestor → Except String (Option String)
  | [] => .ok none
  | a :: rest =>
    match a.dateSel with
    | .error e => .error e
    | .ok none => findDateText rest
    | .ok (some el) =>
      .ok (some (match el.datetimeAttr with
        | some dt => if dt = "" then el.text else dt
        | none => el.text))

/-- The `if not title: title = link_element.get_text(strip=True) or
"Untitled Event"` fallback: `titleFound` is what the ancestor loop left in
`title` (`none` when no ancestor matched). -/
def titleOf (titleFound : Option String) (linkText : String) : String :=
  match titleFound with
  | some t => if t = "" then (if linkText = "" then "Untitled Event" else linkText) else t
  | none => if linkText = "" then "Untitled Event" else linkText

/-- The `if not date: date = "Date TBD"` fallback. -/
def dateOf (dateFound : Option String) : String :=
  match dateFound with
  | some d => if d = "" then "Date TBD" else d
  | none => "Date TBD"

/-- The body of `extract_event_data` inside the `try`: `.error` is a raised
exception (propagated from `normalize_url` or from either ancestor search),
`.ok none` the `return None` taken for an empty href. -/
def extract_event_data_body (le : LinkElem) (base_url : Str) :
    Except String (Option EventDict) :=
  let link_href := le.href.getD ""
  if link_href = "" then .ok none
  else
    match normalize_url link_href.toList base_url with
    | .error e => .error e
    | .ok (stable_id, full_link) =>
      match findTitleText le.parents with
      | .error e => .error e
      | .ok titleFound =>
        match findDateText le.parents with
        | .error e => .error e
        | .ok dateFound =>
          .ok (some ⟨stable_id.asString, full_link.asString,
            titleOf titleFound le.text, dateOf dateFound⟩)

/-- `extract_event_data` (lines 58–112): the surrounding `try/except` turns
any raised exception into `None` for that single node. -/
def extract_event_data (le : LinkElem) (base_url : Str) : Option EventDict :=
  match extract_event_data_body le base_url with
  | .error _ => none
  | .ok r => r

/-! ### The RSS publisher -/

/-- Python `s.replace(p :: ps, rep)` (equal to `rep.join(s.split(p :: ps))`). -/
def replaceSub (p : Char) (ps : Str) (rep : Str) (s : Str) : Str :=
  joinSep rep (splitOnSub p ps s)

/-- `xml.sax.saxutils.escape`: three successive `str.replace` calls, `&`
first, then `<`, then `>`. -/
def escape (s : Str) : Str :=
  replaceSub '>' [] (("&gt;").toList)
    (replaceSub '<' [] (("&lt;").toList)
      (replaceSub '&' [] (("&amp;").toList) s))

/-- `generate_rss_item` (lines 161–182).  The RFC-822 timestamp produced by
`datetime.utcnow().strftime(...)` is passed in as `now`. -/
def generate_rss_item (now : Str) (e : EventDict) : Str :=
  let title := escape e.title.toList
  let link := escape e.link.toList
  let date_str := escape e.date.toList
  let description := escape (("Registration Date: ").toList ++ date_str)
  ("  <item>\n    <title>").toList ++ title
    ++ ("</title>\n    <link>").toList ++ link
    ++ ("</link>\n    <description>").toList ++ description
    ++ ("</description>\n    <pubDate>").toList ++ now
    ++ ("</pubDate>\n    <guid isPermaLink=\"true\">").toList ++ link
    ++ ("</guid>\n  </item>").toList

def itemOpenTag : Str := ("<item>").toList

def itemCloseTag : Str := ("</item>").toList

/-- The channel envelope of `update_rss_feed` before the joined items
(`feed_title`, `feed_link` and `feed_description` are escaped; `now` is the
`lastBuildDate` timestamp). -/
def feedHeader (target_url now : Str) : Str :=
  ("<?xml version=\"1.0\" encoding=\"UTF-8\"?>\n<rss version=\"2.0\">\n  <channel>\n    <title>").toList
    ++ escape (("EUGLOH Course Events").toList)
    ++ ("</title>\n    <link>").toList ++ escape target_url
    ++ ("</link>\n    <description>").toList
    ++ escape (("New course registration opportunities from EUGLOH").toList)
    ++ ("</description>\n    <lastBuildDate>").toList ++ now
    ++ ("</lastBuildDate>\n").toList

/-- The envelope after the joined items. -/
def feedFooter : Str := ("\n  </channel>\n</rss>\n").toList

/-- The tolerant feed re-parser in `update_rss_feed` (lines 190–203): split
the previous feed text on `'</item>'`; from every part except the last that
contains `'<item>'`, keep the text from its first `'<item>'` on and re-append
the closing tag. -/
def parseExistingItems (content : Str) : List Str :=
  let parts := splitOnSub '<' (("/item>").toList) content
  parts.dropLast.filterMap fun part =>
    match findSub itemOpenTag part with
    | some i => some (part.drop i ++ itemCloseTag)
    | none => none

/-- The feed text computed by `update_rss_feed` (lines 185–225): `existing`
is the previous feed file's text (`none` when the file is absent or
unreadable), and `none` is returned when the function exits early because
`new_events` is empty. -/
def publishContent (target_url now : Str) (existing : Option Str)
    (new_events : List EventDict) : Option Str :=
  if new_events = [] then none
  else
    let existing_items :=
      match existing with
      | none => []
      | some content => parseExistingItems content
    let new_items := new_events.reverse.map (generate_rss_item now)
    let all_items := new_items ++ existing_items
    some (feedHeader target_url now ++ joinSep [] all_items ++ feedFooter)

/-! ### Persistence, dedup and the main pipeline -/

/-- The two persisted files. -/
structure FS where
  /-- Parsed JSON array in the state file; `none`: absent or unreadable. -/
  state_file : Option (List String)
  /-- Previous feed text; `none`: absent or unreadable. -/
  feed_file : Option Str
deriving DecidableEq

/-- `load_seen_events` (lines 115–123): a missing or unreadable state file
yields the empty set, `set(json.load(f))` otherwise. -/
def load_seen_events (fs : FS) : Finset String :=
  match fs.state_file with
  | some ids => ids.toFinset
  | none => ∅

/-- `save_seen_events` (lines 126–133): write `sorted(list(seen_ids))`,
fully replacing the store; a write failure is `sys.exit(1)`, modelled as
`.error 1` (`writeOk` says whether the filesystem accepts the write). -/
def save_seen_events (writeOk : Bool) (seen_ids : Finset String) (fs : FS) :
    Except Nat FS :=
  if writeOk then .ok { fs with state_file := some (seen_ids.sort (· ≤ ·)) }
  else .error 1

/-- `update_rss_feed` (lines 185–233) as a filesystem transition: the early
return on empty `new_events` leaves the filesystem untouched, otherwise the
computed text replaces the feed file, and a write failure is `sys.exit(1)`. -/
def update_rss_feed (writeOk : Bool) (target_url now : Str)
    (new_events : List EventDict) (fs : FS) : Except Nat FS :=
  match publishContent target_url now fs.feed_file new_events with
  | none => .ok fs
  | some content =>
    if writeOk then .ok { fs with feed_file := some content } else .error 1

/-- The dedup filter of `scrape_events` (line 269):
`[e for e in events if e['id'] not in seen_ids]`. -/
def dedup (events : List EventDict) (seen_ids : Finset String) : List EventDict :=
  events.filter fun e => decide (e.id ∉ seen_ids)

/-- `scrape_events` (lines 236–273).  The network fetch and HTML parsing are
external collaborators; `fetch` is their outcome: `.error` a fetch exception
(which the function turns into `sys.exit(1)`), `.ok` the candidate link nodes
`soup.select(REG_LINK_SELECTOR)` in document order. -/
def scrape_events (fetch : Except String (List LinkElem)) (target_url : Str)
    (fs : FS) : Except Nat (List EventDict × Finset String) :=
  match fetch with
  | .error _ => .error 1
  | .ok link_elements =>
    let events := link_elements.filterMap fun le => extract_event_data le target_url
    let seen_ids := load_seen_events fs
    let new_events := dedup events seen_ids
    .ok (new_events, seen_ids)

/-- `main` (lines 276–323), returning the process exit status and the final
filesystem.  Webhook posting has no filesystem effect and never aborts; in
the non-empty branch every new id is added to `seen_ids` before the feed is
updated and the state saved, exactly as in the per-event loop. -/
def main (fetch : Except String (List LinkElem)) (target_url now : Str)
    (stateWriteOk feedWriteOk : Bool) (fs : FS) : Nat × FS :=
  match scrape_events fetch target_url fs with
  | .error c => (c, fs)
  | .ok (new_events, seen_ids) =>
    if new_events = [] then
      match save_seen_events stateWriteOk seen_ids fs with
      | .error c => (c, fs)
      | .ok fs1 => (0, fs1)
    else
      let seen_ids := new_events.foldl (fun s e => insert e.id s) seen_ids
      match update_rss_feed feedWriteOk target_url now new_events fs with
      | .error c => (c, fs)
      | .ok fs1 =>
        match save_seen_events stateWriteOk seen_ids fs1 with
        | .error c => (c, fs1)
        | .ok fs2 => (0, fs2)

/-! ### Proof-support definitions

These do not embed further source code; they name shapes used to state and
prove the theorems below. -/

/-- Character-wise description of `escape` (proved equal to it below:
`&`, `<`, `>` become entity references, all else is unchanged). -/
def escChar (c : Char) : Str :=
  if c = '&' then ("&amp;").toList
  else if c = '<' then ("&lt;").toList
  else if c = '>' then ("&gt;").toList
  else [c]

/-- `s` is safe with respect to the separator `pat`: it neither contains
`pat` nor ends in a non-empty proper prefix of `pat` — so no occurrence of
`pat` can lie inside `s` or straddle out of `s` to the right. -/
def LSafe (pat s : Str) : Prop :=
  ¬ pat <:+: s ∧ ∀ k < pat.length, 0 < k → ¬ pat.take k <:+ s

instance (pat s : Str) : Decidable (LSafe pat s) :=
  inferInstanceAs (Decidable (¬ pat <:+: s ∧ ∀ k < pat.length, 0 < k → ¬ pat.take k <:+ s))

/-- The text of a rendered item strictly between its `<item>` and `</item>`
tags (so `generate_rss_item now e = "  " ++ itemOpenTag ++ rssItemMid now e
++ itemCloseTag`, proved below). -/
def rssItemMid (now : Str) (e : EventDict) : Str :=
  ("\n    <title>").toList ++ escape e.title.toList
    ++ ("</title>\n    <link>").toList ++ escape e.link.toList
    ++ ("</link>\n    <description>").toList
    ++ escape (("Registration Date: ").toList ++ escape e.date.toList)
    ++ ("</description>\n    <pubDate>").toList ++ now
    ++ ("</pubDate>\n    <guid isPermaLink=\"true\">").toList ++ escape e.link.toList
    ++ ("</guid>\n  ").toList

/-- The part list produced by splitting a feed `pre ++ core₀ ++ sep ++ … ++
core₍ₙ₋₁₎ ++ sep ++ ftr` on `sep`: the prefix merges into the first part and
the footer is its own final part. -/
def splitShape (ftr : Str) (pre : Str) : List Str → List Str
  | [] => [pre ++ ftr]
  | c :: rest => (pre ++ c) :: splitShape ftr [] rest

/-- The in-memory seen-set at the end of a `main` run whose fetch returned
`elems`: the loaded set plus the id of every new event (equal to the loaded
set itself when no event is new, since the fold is over `[]`). -/
def runSeen (elems : List LinkElem) (target_url : Str) (fs : FS) : Finset String :=
  (dedup (elems.filterMap fun le => extract_event_data le target_url)
      (load_seen_events fs)).foldl
    (fun s e => insert e.id s) (load_seen_events fs)

/-! ## Helper lemmas about `splitOnSub` -/

theorem splitOnSubF_fuel (p : Char) (ps : Str) :
    ∀ (fuel₁ : Nat) (fuel₂ : Nat) (s : Str), s.length ≤ fuel₁ → s.length ≤ fuel₂ →
      splitOnSubF p ps fuel₁ s = splitOnSubF p ps fuel₂ s := by
  intro fuel₁
  induction fuel₁ with
  | zero =>
    intro fuel₂ s h1 h2
    have hs : s = [] := List.eq_nil_of_length_eq_zero (Nat.le_zero.mp h1)
    subst hs
    cases fuel₂ <;> rfl
  | succ f ih =>
    intro fuel₂ s h1 h2
    cases s with
    | nil => cases fuel₂ <;> rfl
    | cons c rest =>
      cases fuel₂ with
      | zero => simp at h2
      | succ f₂ =>
        simp only [List.length_cons, Nat.add_le_add_iff_right] at h1 h2
        simp only [splitOnSubF]
        by_cases hp : (p :: ps).isPrefixOf (c :: rest) = true
        · rw [if_pos hp, if_pos hp,
            ih f₂ (rest.drop ps.length)
              (le_trans (by rw [List.length_drop]; exact Nat.sub_le _ _) h1)
              (le_trans (by rw [List.length_drop]; exact Nat.sub_le _ _) h2)]
        · rw [if_neg hp, if_neg hp, ih f₂ rest h1 h2]

theorem splitOnSub_nil (p : Char) (ps : Str) : splitOnSub p ps [] = [[]] := rfl

theorem splitOnSub_cons (p : Char) (ps : Str) (c : Char) (rest : Str) :
    splitOnSub p ps (c :: rest)
      = if (p :: ps).isPrefixOf (c :: rest) then
          [] :: splitOnSub p ps (rest.drop ps.length)
        else
          match splitOnSub p ps rest with
          | [] => [[c]]
          | r :: rs => (c :: r) :: rs := by
  show splitOnSubF p ps (rest.length + 1) (c :: rest) = _
  simp only [splitOnSubF]
  by_cases hp : (p :: ps).isPrefixOf (c :: rest) = true
  · rw [if_pos hp, if_pos hp,
      splitOnSubF_fuel p ps rest.length (rest.drop ps.length).length (rest.drop ps.length)
        (by rw [List.length_drop]; exact Nat.sub_le _ _) le_rfl]
    rfl
  · rw [if_neg hp, if_neg hp]
    rfl

/-! ## Helper lemmas for the extraction pipeline -/

theorem findTitleText_all_none {l : List Ancestor}
    (h : ∀ a ∈ l, a.titleSel = Except.ok none) : findTitleText l = .ok none := by
  induction l with
  | nil => rfl
  | cons a l ih =>
    have ha := h a (by simp)
    simp only [findTitleText, ha]
    exact ih fun b hb => h b (by simp [hb])

theorem findDateText_all_none {l : List Ancestor}
    (h : ∀ a ∈ l, a.dateSel = Except.ok none) : findDateText l = .ok none := by
  induction l with
  | nil => rfl
  | cons a l ih =>
    have ha := h a (by simp)
    simp only [findDateText, ha]
    exact ih fun b hb => h b (by simp [hb])

theorem titleOf_ne_empty (tf : Option String) (linkText : String) :
    titleOf tf linkText ≠ "" := by
  rcases tf with _ | t
  · by_cases h : linkText = "" <;> simp [titleOf, h]
  · by_cases ht : t = "" <;> by_cases h : linkText = "" <;> simp [titleOf, ht, h]

theorem dateOf_ne_empty (df : Option String) : dateOf df ≠ "" := by
  rcases df with _ | d
  · simp [dateOf]
  · by_cases hd : d = "" <;> simp [dateOf, hd]

/-! ## C1: identity stability of `normalize_url` -/

/-- C1.  For any two link references whose resolutions against the same base
URL succeed and agree on every parsed component except query and fragment
(so the two absolute URLs differ only in query string and/or fragment),
`normalize_url` succeeds on both and returns the same identity; and whenever
`normalize_url` returns, the identity is exactly the resolved absolute URL
rebuilt from scheme, host (netloc) and path only, with query and fragment
(and params) stripped. -/
theorem normalize_url_identity_stable :
    (∀ (u1 u2 base_url a1 a2 : Str) (p1 p2 : ParseResult),
        urljoin base_url u1 = Except.ok a1 →
        urljoin base_url u2 = Except.ok a2 →
        urlparse a1 [] = Except.ok p1 →
        urlparse a2 [] = Except.ok p2 →
        p1.scheme = p2.scheme → p1.netloc = p2.netloc →
        p1.path = p2.path → p1.params = p2.params →
        ∃ id1 id2 : Str,
          normalize_url u1 base_url = Except.ok (id1, a1) ∧
          normalize_url u2 base_url = Except.ok (id2, a2) ∧
          id1 = id2) ∧
    (∀ (url base_url ident abs_url : Str),
        normalize_url url base_url = Except.ok (ident, abs_url) →
        ∃ p : ParseResult, urlparse abs_url [] = Except.ok p ∧
          ident = urlunparse ⟨p.scheme, p.netloc, p.path, [], [], []⟩) := by
  constructor
  · intro u1 u2 base_url a1 a2 p1 p2 hj1 hj2 hp1 hp2 hs hn hp _
    refine ⟨urlunparse ⟨p1.scheme, p1.netloc, p1.path, [], [], []⟩,
            urlunparse ⟨p2.scheme, p2.netloc, p2.path, [], [], []⟩, ?_, ?_, ?_⟩
    · simp only [normalize_url, hj1, hp1]
    · simp only [normalize_url, hj2, hp2]
    · rw [hs, hn, hp]
  · intro url base_url ident abs_url h
    rcases hj : urljoin base_url url with e | a
    · simp [normalize_url, hj] at h
    · rcases hp : urlparse a [] with e | p
      · simp [normalize_url, hj, hp] at h
      · simp only [normalize_url, hj, hp, Except.ok.injEq, Prod.mk.injEq] at h
        obtain ⟨h1, h2⟩ := h
        subst h2
        exact ⟨p, hp, h1.symm⟩

/-- Witness for C1, on the spec's own scenario: two references below
`https://x.org/courses/` that resolve to absolute URLs differing only in
query and fragment collapse to one identity, which is the query- and
fragment-stripped `https://x.org/reg`. -/
theorem normalize_url_identity_stable_witness :
    (∃ id1 id2 : Str,
        normalize_url (("/reg?sid=123#top").toList) (("https://x.org/courses/").toList)
            = Except.ok (id1, ("https://x.org/reg?sid=123#top").toList) ∧
        normalize_url (("/reg#bottom").toList) (("https://x.org/courses/").toList)
            = Except.ok (id2, ("https://x.org/reg#bottom").toList) ∧
        id1 = id2) ∧
    normalize_url (("/reg?sid=123#top").toList) (("https://x.org/courses/").toList)
        = Except.ok (("https://x.org/reg").toList,
            ("https://x.org/reg?sid=123#top").toList) :=
  ⟨normalize_url_identity_stable.1 _ _ _ _ _
      ⟨("https").toList, ("x.org").toList, ("/reg").toList, [],
        ("sid=123").toList, ("top").toList⟩
      ⟨("https").toList, ("x.org").toList, ("/reg").toList, [], [],
        ("bottom").toList⟩
      (by decide) (by decide) (by decide) (by decide) rfl rfl rfl rfl,
   by decide⟩

/-! ## C2: the dedup step -/

/-- C2.  The dedup step keeps exactly the events whose identity is not in
the seen-set: the result is a subsequence of the input (page order
preserved), membership is exactly "extracted and not seen", its length is
the number of qualifying events, and `scrape_events` returns the loaded
seen-set unchanged (no mutation). -/
theorem dedup_filters_in_page_order :
    (∀ (events : List EventDict) (seen : Finset String),
        (dedup events seen).Sublist events ∧
        (∀ e, e ∈ dedup events seen ↔ e ∈ events ∧ e.id ∉ seen) ∧
        (dedup events seen).length = events.countP fun e => decide (e.id ∉ seen)) ∧
    (∀ (fetch : Except String (List LinkElem)) (target_url : Str) (fs : FS)
        (new_events : List EventDict) (returned_seen : Finset String),
        scrape_events fetch target_url fs = Except.ok (new_events, returned_seen) →
        returned_seen = load_seen_events fs) := by
  constructor
  · intro events seen
    refine ⟨List.filter_sublist _, ?_, ?_⟩
    · intro e
      simp [dedup, List.mem_filter]
    · simp [dedup, List.countP_eq_length_filter]
  · intro fetch tu fs nes sns h
    cases fetch with
    | error e => simp [scrape_events] at h
    | ok elems =>
      simp only [scrape_events, Except.ok.injEq, Prod.mk.injEq] at h
      exact h.2.symm

/-- Witness for C2: a concrete `scrape_events` run returns the loaded
seen-set itself. -/
theorem dedup_filters_in_page_order_witness :
    (["x"] : List String).toFinset = load_seen_events ⟨some ["x"], none⟩ :=
  dedup_filters_in_page_order.2 (Except.ok []) [] ⟨some ["x"], none⟩ []
    (["x"] : List String).toFinset rfl

/-! ## C5: extraction fallbacks -/

/-- C5 counterexample to "never absent": the href `//[` is non-empty, yet
`extract_event_data` returns `none` for it — CPython `urlsplit` raises
`ValueError("Invalid IPv6 URL")` on the unbalanced bracket in the netloc,
and the `try/except` of `extract_event_data` (line 110) turns the exception
into `None` for that node, even with no discoverable ancestor title or
date. -/
theorem extract_bracket_href_counterexample :
    ((some "//[" : Option String).getD "" ≠ "") ∧
    extract_event_data ⟨some "//[", "Course", []⟩ (("https://x.org/courses/").toList)
      = none := by
  decide

/-- C5 (amended).  A candidate link node with a non-empty href on which URL
resolution succeeds (`normalize_url` can raise, e.g. for the href `//[`; the
exception is caught and the node yields `none`) but no discoverable ancestor
title and no discoverable ancestor date still yields an event, with the
trimmed link text as title (or "Untitled Event" when that is empty) and
"Date TBD" as date; and every returned event has a non-empty title and a
non-empty date. -/
theorem extract_fallback_and_nonempty :
    (∀ (le : LinkElem) (base_url nid nlink : Str),
        le.href.getD "" ≠ "" →
        normalize_url (le.href.getD "").toList base_url = Except.ok (nid, nlink) →
        (∀ a ∈ le.parents, a.titleSel = Except.ok none) →
        (∀ a ∈ le.parents, a.dateSel = Except.ok none) →
        extract_event_data le base_url
          = some ⟨nid.asString, nlink.asString,
                  (if le.text = "" then "Untitled Event" else le.text),
                  "Date TBD"⟩) ∧
    (∀ (le : LinkElem) (base_url : Str) (ev : EventDict),
        extract_event_data le base_url = some ev → ev.title ≠ "" ∧ ev.date ≠ "") := by
  constructor
  · intro le base_url nid nlink hh hnz ht hd
    have hnz2 : normalize_url (le.href.getD "").data base_url
        = Except.ok (nid, nlink) := hnz
    simp [extract_event_data, extract_event_data_body, hh, hnz2,
      findTitleText_all_none ht, findDateText_all_none hd, titleOf, dateOf]
  · intro le base_url ev h
    by_cases hh : le.href.getD "" = ""
    · simp [extract_event_data, extract_event_data_body, hh] at h
    · rcases hn : normalize_url (le.href.getD "").toList base_url with e0 | ⟨nid, nlink⟩
      · have hn2 : normalize_url (le.href.getD "").data base_url
            = Except.error e0 := hn
        simp [extract_event_data, extract_event_data_body, hh, hn2] at h
      · have hn2 : normalize_url (le.href.getD "").data base_url
            = Except.ok (nid, nlink) := hn
        rcases h1 : findTitleText le.parents with e1 | tf
        · simp [extract_event_data, extract_event_data_body, hh, hn2, h1] at h
        · rcases h2 : findDateText le.parents with e2 | df
          · simp [extract_event_data, extract_event_data_body, hh, hn2, h1, h2] at h
          · simp only [extract_event_data, extract_event_data_body, if_neg hh, hn, h1, h2,
              Option.some.injEq] at h
            rw [← h]
            exact ⟨titleOf_ne_empty tf le.text, dateOf_ne_empty df⟩

/-- Witness for C5: a node with href `/reg`, empty link text and no matching
ancestors yields the placeholder title and date. -/
theorem extract_fallback_and_nonempty_witness :
    extract_event_data ⟨some "/reg", "", [⟨Except.ok none, Except.ok none⟩]⟩
        (("https://x.org/").toList)
      = some ⟨"https://x.org/reg", "https://x.org/reg", "Untitled Event", "Date TBD"⟩ := by
  have h := extract_fallback_and_nonempty.1
    ⟨some "/reg", "", [⟨Except.ok none, Except.ok none⟩]⟩ (("https://x.org/").toList)
    (("https://x.org/reg").toList) (("https://x.org/reg").toList)
    (by decide) (by decide)
    (by intro a ha; simp at ha; rw [ha]) (by intro a ha; simp at ha; rw [ha])
  rw [h]
  decide

/-! ## C7: absent href and error recovery -/

/-- C7.  A link node with a missing or empty href yields `none` (absence,
not an error); any exception raised while extracting one node is caught and
converted to `none` for that node; and a `none` result for one candidate
leaves the processing of all other candidates unchanged. -/
theorem extract_absent_and_recovery :
    (∀ (le : LinkElem) (base_url : Str),
        le.href = none ∨ le.href = some "" → extract_event_data le base_url = none) ∧
    (∀ (le : LinkElem) (base_url : Str) (msg : String),
        extract_event_data_body le base_url = Except.error msg →
        extract_event_data le base_url = none) ∧
    (∀ (xs ys : List LinkElem) (le : LinkElem) (target_url : Str),
        extract_event_data le target_url = none →
        (xs ++ le :: ys).filterMap (fun x => extract_event_data x target_url)
          = xs.filterMap (fun x => extract_event_data x target_url)
            ++ ys.filterMap (fun x => extract_event_data x target_url)) := by
  refine ⟨?_, ?_, ?_⟩
  · intro le base_url h
    rcases h with h | h <;> simp [extract_event_data, extract_event_data_body, h]
  · intro le base_url msg h
    simp [extract_event_data, h]
  · intro xs ys le tu h
    simp [List.filterMap_append, List.filterMap_cons, h]

/-- Witness for C7: a raising ancestor query on one node is swallowed and
the surrounding extraction loop still processes the other nodes. -/
theorem extract_absent_and_recovery_witness :
    ([⟨some "/a", "T", []⟩, ⟨none, "bad", []⟩, ⟨some "/b", "U", []⟩]
        : List LinkElem).filterMap
        (fun x => extract_event_data x (("https://x.org/").toList))
      = [⟨some "/a", "T", []⟩].filterMap
          (fun x => extract_event_data x (("https://x.org/").toList))
        ++ [⟨some "/b", "U", []⟩].filterMap
          (fun x => extract_event_data x (("https://x.org/").toList)) :=
  extract_absent_and_recovery.2.2 [⟨some "/a", "T", []⟩] [⟨some "/b", "U", []⟩]
    ⟨none, "bad", []⟩ (("https://x.org/").toList)
    (extract_absent_and_recovery.1 ⟨none, "bad", []⟩ _ (Or.inl rfl))

/-! ## Helper lemmas for the seen-set -/

theorem mem_foldl_insert (l : List EventDict) (init : Finset String) (x : String) :
    x ∈ l.foldl (fun s e => insert e.id s) init ↔ x ∈ init ∨ ∃ e ∈ l, e.id = x := by
  induction l generalizing init with
  | nil => simp
  | cons a l ih =>
    rw [List.foldl_cons, ih]
    constructor
    · rintro (h | ⟨e, he, rfl⟩)
      · rcases Finset.mem_insert.mp h with h | h
        · exact Or.inr ⟨a, by simp, h.symm⟩
        · exact Or.inl h
      · exact Or.inr ⟨e, by simp [he], rfl⟩
    · rintro (h | ⟨e, he, rfl⟩)
      · exact Or.inl (Finset.mem_insert.mpr (Or.inr h))
      · rcases List.mem_cons.mp he with rfl | he
        · exact Or.inl (Finset.mem_insert.mpr (Or.inl rfl))
        · exact Or.inr ⟨e, he, rfl⟩

/-- A successful run persists exactly the sorted in-memory seen-set: if
`main` exits 0, the final state file holds `runSeen` sorted. -/
theorem main_zero_state_file (elems : List LinkElem) (target_url now : Str)
    (stateWriteOk feedWriteOk : Bool) (fs fs' : FS)
    (h : main (Except.ok elems) target_url now stateWriteOk feedWriteOk fs = (0, fs')) :
    fs'.state_file = some ((runSeen elems target_url fs).sort (· ≤ ·)) := by
  by_cases hde : dedup (elems.filterMap fun le => extract_event_data le target_url)
      (load_seen_events fs) = []
  · cases stateWriteOk with
    | false => simp [main, scrape_events, hde, save_seen_events] at h
    | true =>
      simp only [main, scrape_events, hde, save_seen_events, if_true, ite_true,
        Prod.mk.injEq, true_and] at h
      rw [← h]
      simp [runSeen, hde]
  · cases feedWriteOk with
    | false => simp [main, scrape_events, hde, update_rss_feed, publishContent] at h
    | true =>
      cases stateWriteOk with
      | false =>
        simp [main, scrape_events, hde, update_rss_feed, publishContent,
          save_seen_events] at h
      | true =>
        simp only [main, scrape_events, hde, update_rss_feed, publishContent,
          save_seen_events, if_neg, ite_true, ite_false, Prod.mk.injEq, true_and] at h
        rw [← h]
        simp [runSeen]

/-- On a successful run the loaded seen-set is contained in `runSeen`. -/
theorem load_le_runSeen (elems : List LinkElem) (target_url : Str) (fs : FS) :
    load_seen_events fs ⊆ runSeen elems target_url fs := fun x hx =>
  (mem_foldl_insert _ _ x).mpr (Or.inl hx)

/-! ## C3: idempotence across two runs -/

/-- C3.  After a successful run, a second `scrape_events` against the same
page (the same fetched link nodes, hence the same extracted event list) with
the seen-set state the first run left behind finds zero new events. -/
theorem second_run_yields_no_new_events
    (fetch : Except String (List LinkElem)) (target_url now : Str)
    (stateWriteOk feedWriteOk : Bool) (fs fs' : FS)
    (h : main fetch target_url now stateWriteOk feedWriteOk fs = (0, fs')) :
    scrape_events fetch target_url fs' = Except.ok ([], load_seen_events fs') := by
  cases fetch with
  | error e => simp [main, scrape_events] at h
  | ok elems =>
    have hstate := main_zero_state_file elems target_url now stateWriteOk feedWriteOk fs fs' h
    have hload : load_seen_events fs' = runSeen elems target_url fs := by
      simp [load_seen_events, hstate, Finset.sort_toFinset]
    have hde2 : dedup (elems.filterMap fun le => extract_event_data le target_url)
        (load_seen_events fs') = [] := by
      rw [hload]
      refine List.filter_eq_nil_iff.mpr fun e he => ?_
      simp only [decide_eq_true_eq, Decidable.not_not]
      refine (mem_foldl_insert _ _ e.id).mpr ?_
      by_cases hm : e.id ∈ load_seen_events fs
      · exact Or.inl hm
      · exact Or.inr ⟨e, List.mem_filter.mpr ⟨he, by simp [hm]⟩, rfl⟩
    simp [scrape_events, hde2]

/-- Witness for C3: a concrete successful run after which a rescrape finds
nothing new. -/
theorem second_run_yields_no_new_events_witness :
    scrape_events (Except.ok []) [] ⟨some [], none⟩
      = Except.ok ([], load_seen_events ⟨some [], none⟩) :=
  second_run_yields_no_new_events (Except.ok []) [] [] true true
    ⟨some [], none⟩ ⟨some [], none⟩
    (by simp [main, scrape_events, save_seen_events, dedup, load_seen_events,
      List.toFinset_nil, Finset.sort_empty])

/-! ## C4: monotonicity of the persisted seen-set -/

/-- C4.  For every run that completes successfully, the persisted seen-set
is a superset of the seen-set loaded at the start: identities are only ever
added, never removed. -/
theorem seen_set_monotone
    (fetch : Except String (List LinkElem)) (target_url now : Str)
    (stateWriteOk feedWriteOk : Bool) (fs fs' : FS)
    (h : main fetch target_url now stateWriteOk feedWriteOk fs = (0, fs')) :
    load_seen_events fs ⊆ load_seen_events fs' := by
  cases fetch with
  | error e => simp [main, scrape_events] at h
  | ok elems =>
    have hstate := main_zero_state_file elems target_url now stateWriteOk feedWriteOk fs fs' h
    have hload : load_seen_events fs' = runSeen elems target_url fs := by
      simp [load_seen_events, hstate, Finset.sort_toFinset]
    rw [hload]
    exact load_le_runSeen elems target_url fs

/-- Witness for C4: a concrete successful run whose persisted seen-set
contains the loaded one. -/
theorem seen_set_monotone_witness :
    load_seen_events ⟨some ["a"], none⟩ ⊆ load_seen_events ⟨some ["a"], none⟩ :=
  seen_set_monotone (Except.ok []) [] [] true true ⟨some ["a"], none⟩ ⟨some ["a"], none⟩
    (by simp [main, scrape_events, save_seen_events, dedup, load_seen_events,
      List.toFinset_cons, List.toFinset_nil, Finset.sort_singleton])

/-! ## C8: exit status -/

/-- C8.  The run exits 0 exactly when the fetch succeeded, the seen-set
store write succeeded, and either there were no new events (so the feed was
never written) or the feed write succeeded; so an attempted-and-failed write
of either persisted file forces a non-zero exit, and a run that completes —
including one with zero new events — exits 0. -/
theorem exit_status_characterization
    (fetch : Except String (List LinkElem)) (target_url now : Str)
    (stateWriteOk feedWriteOk : Bool) (fs : FS) :
    (main fetch target_url now stateWriteOk feedWriteOk fs).1 = 0 ↔
      (match fetch with
       | .error _ => False
       | .ok elems =>
         stateWriteOk = true ∧
         (dedup (elems.filterMap fun le => extract_event_data le target_url)
             (load_seen_events fs) = [] ∨ feedWriteOk = true)) := by
  cases fetch with
  | error e => simp [main, scrape_events]
  | ok elems =>
    by_cases hde : dedup (elems.filterMap fun le => extract_event_data le target_url)
        (load_seen_events fs) = [] <;>
      cases stateWriteOk <;> cases feedWriteOk <;>
        simp [main, scrape_events, hde, save_seen_events, update_rss_feed,
          publishContent]

/-! ## C9: empty runs publish nothing but still persist -/

/-- C9.  With an empty new-event list the publisher does nothing (it returns
the filesystem unchanged: no feed file is created and an existing one is
untouched), while `main` still persists the seen-set, touching only the
state file — so the store exists after every successful run. -/
theorem empty_run_publishes_nothing_persists_seen :
    (∀ (writeOk : Bool) (target_url now : Str) (fs : FS),
        update_rss_feed writeOk target_url now [] fs = Except.ok fs) ∧
    (∀ (elems : List LinkElem) (target_url now : Str) (feedWriteOk : Bool) (fs : FS),
        dedup (elems.filterMap fun le => extract_event_data le target_url)
            (load_seen_events fs) = [] →
        main (Except.ok elems) target_url now true feedWriteOk fs
          = (0, { fs with
                  state_file := some ((load_seen_events fs).sort (· ≤ ·)) })) := by
  constructor
  · intro writeOk target_url now fs
    simp [update_rss_feed, publishContent]
  · intro elems target_url now feedWriteOk fs hde
    simp [main, scrape_events, hde, save_seen_events]

/-- Witness for C9: an empty run leaves the feed absent and writes the
state file. -/
theorem empty_run_publishes_nothing_persists_seen_witness :
    main (Except.ok []) [] [] true false ⟨some ["a"], none⟩
      = (0, { state_file := some ((load_seen_events ⟨some ["a"], none⟩).sort (· ≤ ·)),
              feed_file := none }) :=
  empty_run_publishes_nothing_persists_seen.2 [] [] [] false ⟨some ["a"], none⟩ rfl

/-! ## Separator-safety (`LSafe`) lemmas -/

theorem lsafe_nil {pat : Str} (hpat : pat ≠ []) : LSafe pat [] := by
  constructor
  · intro h
    exact hpat (List.eq_nil_of_length_eq_zero (Nat.le_zero.mp h.length_le))
  · intro k hklt hk0 h
    have hlen : (pat.take k).length = k := by
      rw [List.length_take]
      omega
    have := h.length_le
    simp only [hlen, List.length_nil] at this
    omega

theorem lsafe_of_head_not_mem {c : Char} {tl s : Str} (h : c ∉ s) : LSafe (c :: tl) s := by
  constructor
  · intro hinf
    exact h (hinf.subset (by simp))
  · intro k hklt hk0 hsuf
    apply h
    apply hsuf.subset
    cases k with
    | zero => omega
    | succ k => simp [List.take_succ_cons]

theorem lsafe_suffix {pat u s : Str} (hu : u <:+ s) (hs : LSafe pat s) : LSafe pat u := by
  constructor
  · intro h
    exact hs.1 (h.trans hu.isInfix)
  · intro k hklt hk0 h
    exact hs.2 k hklt hk0 (h.trans hu)

theorem lsafe_append {pat x y : Str} (hx : LSafe pat x) (hy : LSafe pat y) :
    LSafe pat (x ++ y) := by
  constructor
  · rintro ⟨a, b, hab⟩
    have hab' : a ++ (pat ++ b) = x ++ y := by rw [← List.append_assoc]; exact hab
    rcases List.append_eq_append_iff.mp hab' with ⟨w, hxw, hw⟩ | ⟨w, haw, hyw⟩
    · rcases List.append_eq_append_iff.mp hw with ⟨v, hwv, hv⟩ | ⟨v, hpv, hyv⟩
      · exact hx.1 ⟨a, v, by rw [hxw, hwv, List.append_assoc]⟩
      · by_cases hw0 : w = []
        · subst hw0
          have hpv' : pat = v := by simpa using hpv
          exact hy.1 ⟨[], b, by simp [hyv, hpv']⟩
        · by_cases hv0 : v = []
          · subst hv0
            rw [List.append_nil] at hpv
            exact hx.1 (List.IsSuffix.isInfix ⟨a, by rw [← hpv] at hxw; exact hxw.symm⟩)
          · have hwpre : pat.take w.length = w := by rw [hpv, List.take_left]
            have hwlt : w.length < pat.length := by
              rw [hpv, List.length_append]
              have := List.length_pos.mpr hv0
              omega
            have hwpos : 0 < w.length := List.length_pos.mpr hw0
            exact hx.2 w.length hwlt hwpos (by rw [hwpre]; exact ⟨a, hxw.symm⟩)
    · exact hy.1 ⟨w, b, by rw [hyw, List.append_assoc]⟩
  · intro k hklt hk0 hsuf
    obtain ⟨u, hu⟩ := hsuf
    rcases List.append_eq_append_iff.mp hu with ⟨w, hxw, hw⟩ | ⟨w, huw, hyw⟩
    · by_cases hw0 : w = []
      · subst hw0
        rw [List.nil_append] at hw
        exact hy.2 k hklt hk0 (hw ▸ List.suffix_refl _)
      · have hwpre : w <+: pat := List.IsPrefix.trans ⟨y, hw.symm⟩ (List.take_prefix k pat)
        have hwtake : pat.take w.length = w := (List.prefix_iff_eq_take.mp hwpre).symm
        have hwlt : w.length < pat.length := by
          have h1 : w.length ≤ (pat.take k).length := by
            rw [hw, List.length_append]
            omega
          rw [List.length_take] at h1
          omega
        have hwpos : 0 < w.length := List.length_pos.mpr hw0
        exact hx.2 w.length hwlt hwpos (by rw [hwtake]; exact ⟨u, hxw.symm⟩)
    · exact hy.2 k hklt hk0 ⟨w, hyw.symm⟩

theorem not_prefix_of_lsafe {pat a b : Str} (hne : a ≠ []) (ha : LSafe pat a) :
    ¬ pat <+: a ++ pat ++ b := by
  rintro ⟨r, hr⟩
  have hr' : pat ++ r = a ++ (pat ++ b) := by rw [← List.append_assoc]; exact hr
  rcases List.append_eq_append_iff.mp hr' with ⟨w, haw, hw⟩ | ⟨w, hpw, hw⟩
  · exact ha.1 ⟨[], w, by simp [haw]⟩
  · by_cases hw0 : w = []
    · subst hw0
      rw [List.append_nil] at hpw
      exact ha.1 ⟨[], [], by simp [hpw]⟩
    · have hlt : a.length < pat.length := by
        rw [hpw, List.length_append]
        have := List.length_pos.mpr hw0
        omega
      have hpos : 0 < a.length := List.length_pos.mpr hne
      have htake : pat.take a.length = a := by rw [hpw, List.take_left]
      exact ha.2 a.length hlt hpos (by rw [htake])

/-! ## Splitting and searching around safe separators -/

theorem splitOnSub_eq_single {p : Char} {ps s : Str} (h : ¬ (p :: ps) <:+: s) :
    splitOnSub p ps s = [s] := by
  induction s with
  | nil => rfl
  | cons c rest ih =>
    rw [splitOnSub_cons, if_neg ?hnp]
    case hnp =>
      intro hpre
      exact h (List.IsPrefix.isInfix (List.isPrefixOf_iff_prefix.mp hpre))
    rw [ih fun hi => h (List.infix_cons hi)]

theorem splitOnSub_ne_nil (p : Char) (ps s : Str) : splitOnSub p ps s ≠ [] := by
  cases s with
  | nil => simp [splitOnSub_nil]
  | cons c rest =>
    rw [splitOnSub_cons]
    by_cases hp : (p :: ps).isPrefixOf (c :: rest) = true
    · simp [hp]
    · rw [if_neg hp]
      rcases h : splitOnSub p ps rest with _ | ⟨r, rs⟩ <;> simp

theorem splitOnSub_append {p : Char} {ps b : Str} :
    ∀ {a : Str}, LSafe (p :: ps) a →
      splitOnSub p ps (a ++ (p :: ps) ++ b) = a :: splitOnSub p ps b := by
  intro a
  induction a with
  | nil =>
    intro _
    simp only [List.nil_append, List.cons_append]
    rw [splitOnSub_cons, if_pos ?hp]
    case hp => exact List.isPrefixOf_iff_prefix.mpr ⟨b, by simp⟩
    rw [List.drop_left ps b]
  | cons c a' ih =>
    intro ha
    have hne : (c :: a') ≠ [] := by simp
    have hgoal : (c :: a') ++ (p :: ps) ++ b = c :: (a' ++ (p :: ps) ++ b) := by
      simp [List.cons_append, List.append_assoc]
    rw [hgoal, splitOnSub_cons, if_neg ?hnp]
    case hnp =>
      intro hpre
      have h1 := List.isPrefixOf_iff_prefix.mp hpre
      have h2 : (p :: ps) <+: (c :: a') ++ (p :: ps) ++ b := by
        rw [hgoal]
        exact h1
      exact not_prefix_of_lsafe hne ha h2
    rw [ih (lsafe_suffix (List.suffix_cons c a') ha)]

theorem findSub_append {pat y : Str} (hpat : pat ≠ []) :
    ∀ {x : Str}, LSafe pat x → findSub pat (x ++ pat ++ y) = some x.length := by
  intro x
  induction x with
  | nil =>
    intro _
    obtain ⟨q, qs, rfl⟩ : ∃ q qs, pat = q :: qs := by
      cases pat with
      | nil => exact absurd rfl hpat
      | cons q qs => exact ⟨q, qs, rfl⟩
    simp only [List.nil_append, List.cons_append, findSub]
    rw [if_pos (List.isPrefixOf_iff_prefix.mpr ⟨y, by simp⟩)]
    rfl
  | cons c x' ih =>
    intro hx
    have hne : (c :: x') ≠ [] := by simp
    have hgoal : (c :: x') ++ pat ++ y = c :: (x' ++ pat ++ y) := by
      simp [List.cons_append, List.append_assoc]
    rw [hgoal, findSub, if_neg ?hnp]
    case hnp =>
      intro hpre
      have h2 : pat <+: (c :: x') ++ pat ++ y := by
        rw [hgoal]
        exact List.isPrefixOf_iff_prefix.mp hpre
      exact not_prefix_of_lsafe hne hx h2
    rw [ih (lsafe_suffix (List.suffix_cons c x') hx)]
    rfl

/-! ## `escape` lemmas -/

theorem joinSep_nil_cons (x : Str) (xs : List Str) :
    joinSep [] (x :: xs) = x ++ joinSep [] xs := by
  cases xs <;> simp [joinSep]

theorem replaceSub_single (c : Char) (rep : Str) (s : Str) :
    replaceSub c [] rep s = s.flatMap fun x => if x = c then rep else [x] := by
  induction s with
  | nil => rfl
  | cons x rest ih =>
    unfold replaceSub at ih ⊢
    rw [splitOnSub_cons]
    by_cases hx : x = c
    · subst hx
      rw [if_pos (by simp [List.isPrefixOf_cons₂, List.isPrefixOf])]
      simp only [List.length_nil, List.drop_zero]
      obtain ⟨r, rs, hr⟩ : ∃ r rs, splitOnSub x [] rest = r :: rs := by
        rcases h : splitOnSub x [] rest with _ | ⟨r, rs⟩
        · exact absurd h (splitOnSub_ne_nil x [] rest)
        · exact ⟨r, rs, rfl⟩
      rw [hr] at ih ⊢
      show [] ++ rep ++ joinSep rep (r :: rs) = _
      rw [List.flatMap_cons, if_pos rfl, ← ih, List.nil_append]
    · rw [if_neg (by simp [List.isPrefixOf_cons₂]; intro h; exact hx h.symm)]
      obtain ⟨r, rs, hr⟩ : ∃ r rs, splitOnSub c [] rest = r :: rs := by
        rcases h : splitOnSub c [] rest with _ | ⟨r, rs⟩
        · exact absurd h (splitOnSub_ne_nil c [] rest)
        · exact ⟨r, rs, rfl⟩
      rw [hr] at ih ⊢
      rw [List.flatMap_cons, if_neg hx, ← ih]
      cases rs with
      | nil => rfl
      | cons r2 rs2 => rfl

theorem escape_eq_flatMap (s : Str) : escape s = s.flatMap escChar := by
  unfold escape
  rw [replaceSub_single, replaceSub_single, replaceSub_single,
    List.flatMap_assoc, List.flatMap_assoc]
  apply List.flatMap_congr
  intro x _
  by_cases h1 : x = '&'
  · subst h1; decide
  · by_cases h2 : x = '<'
    · subst h2; decide
    · by_cases h3 : x = '>'
      · subst h3; decide
      · simp [escChar, h1, h2, h3]

theorem lt_not_mem_escape (s : Str) : '<' ∉ escape s := by
  rw [escape_eq_flatMap]
  intro h
  obtain ⟨a, -, ha⟩ := List.mem_flatMap.mp h
  unfold escChar at ha
  by_cases h1 : a = '&'
  · rw [if_pos h1] at ha
    exact absurd ha (by decide)
  · rw [if_neg h1] at ha
    by_cases h2 : a = '<'
    · rw [if_pos h2] at ha
      exact absurd ha (by decide)
    · rw [if_neg h2] at ha
      by_cases h3 : a = '>'
      · rw [if_pos h3] at ha
        exact absurd ha (by decide)
      · rw [if_neg h3] at ha
        simp at ha
        exact h2 ha.symm

theorem gt_not_mem_escape (s : Str) : '>' ∉ escape s := by
  rw [escape_eq_flatMap]
  intro h
  obtain ⟨a, -, ha⟩ := List.mem_flatMap.mp h
  unfold escChar at ha
  by_cases h1 : a = '&'
  · rw [if_pos h1] at ha
    exact absurd ha (by decide)
  · rw [if_neg h1] at ha
    by_cases h2 : a = '<'
    · rw [if_pos h2] at ha
      exact absurd ha (by decide)
    · rw [if_neg h2] at ha
      by_cases h3 : a = '>'
      · rw [if_pos h3] at ha
        exact absurd ha (by decide)
      · rw [if_neg h3] at ha
        simp at ha
        exact h3 ha.symm

/-! ## Shape of a split and re-parsed feed -/

theorem splitShape_ne_nil (ftr pre : Str) (l : List Str) : splitShape ftr pre l ≠ [] := by
  cases l <;> simp [splitShape]

theorem splitOnSub_splitShape {p : Char} {ps ftr : Str} (hftr : LSafe (p :: ps) ftr) :
    ∀ (cores : List Str) (pre : Str), LSafe (p :: ps) pre →
      (∀ c ∈ cores, LSafe (p :: ps) c) →
      splitOnSub p ps (pre ++ joinSep [] (cores.map fun c => c ++ (p :: ps)) ++ ftr)
        = splitShape ftr pre cores := by
  intro cores
  induction cores with
  | nil =>
    intro pre hpre _
    simp only [List.map_nil, joinSep, List.append_nil]
    rw [splitOnSub_eq_single (lsafe_append hpre hftr).1]
    rfl
  | cons c cs ih =>
    intro pre hpre hcores
    have hc : LSafe (p :: ps) c := hcores c (by simp)
    rw [List.map_cons, joinSep_nil_cons]
    have hre : pre ++ (c ++ (p :: ps) ++ joinSep [] (cs.map fun x => x ++ (p :: ps))) ++ ftr
        = (pre ++ c) ++ (p :: ps) ++ (joinSep [] (cs.map fun x => x ++ (p :: ps)) ++ ftr) := by
      simp [List.append_assoc]
    rw [hre, splitOnSub_append (lsafe_append hpre hc)]
    have ih' := ih [] (lsafe_nil (by simp)) (fun x hx => hcores x (by simp [hx]))
    rw [List.nil_append] at ih'
    rw [ih']
    rfl

theorem filterMap_parse_splitShape {ftr : Str} :
    ∀ (l : List (Str × Str)) (pre : Str), LSafe itemOpenTag pre →
      (∀ pm ∈ l, LSafe itemOpenTag pm.1) →
      ((splitShape ftr pre (l.map fun pm => pm.1 ++ itemOpenTag ++ pm.2)).dropLast.filterMap
          fun part =>
            match findSub itemOpenTag part with
            | some i => some (part.drop i ++ itemCloseTag)
            | none => none)
        = l.map fun pm => itemOpenTag ++ pm.2 ++ itemCloseTag := by
  intro l
  induction l with
  | nil =>
    intro pre _ _
    simp [splitShape]
  | cons pm rest ih =>
    intro pre hpre hl
    simp only [List.map_cons, splitShape]
    rw [List.dropLast_cons_of_ne_nil (splitShape_ne_nil _ _ _)]
    have hfind : findSub itemOpenTag (pre ++ (pm.1 ++ itemOpenTag ++ pm.2))
        = some (pre ++ pm.1).length := by
      have hsh : pre ++ (pm.1 ++ itemOpenTag ++ pm.2)
          = (pre ++ pm.1) ++ itemOpenTag ++ pm.2 := by
        simp [List.append_assoc]
      rw [hsh]
      exact findSub_append (by decide) (lsafe_append hpre (hl pm (by simp)))
    have hval : (match findSub itemOpenTag (pre ++ (pm.1 ++ itemOpenTag ++ pm.2)) with
        | some i => some ((pre ++ (pm.1 ++ itemOpenTag ++ pm.2)).drop i ++ itemCloseTag)
        | none => none) = some (itemOpenTag ++ pm.2 ++ itemCloseTag) := by
      rw [hfind]
      have hdrop : (pre ++ (pm.1 ++ itemOpenTag ++ pm.2)).drop (pre ++ pm.1).length
          = itemOpenTag ++ pm.2 := by
        have hsh : pre ++ (pm.1 ++ itemOpenTag ++ pm.2)
            = (pre ++ pm.1) ++ (itemOpenTag ++ pm.2) := by
          simp [List.append_assoc]
        rw [hsh, List.drop_left]
      show some ((pre ++ (pm.1 ++ itemOpenTag ++ pm.2)).drop (pre ++ pm.1).length
        ++ itemCloseTag) = _
      rw [hdrop]
    simp only [List.filterMap_cons, hval]
    rw [ih [] (lsafe_nil (by decide)) (fun x hx => hl x (by simp [hx]))]

/-! ## Decomposition and separator-safety of the rendered pieces -/

theorem lsafe_close_of_not_mem {s : Str} (h : '<' ∉ s) : LSafe itemCloseTag s := by
  have hc : itemCloseTag = '<' :: ("/item>").toList := by decide
  rw [hc]
  exact lsafe_of_head_not_mem h

theorem lsafe_open_of_not_mem {s : Str} (h : '<' ∉ s) : LSafe itemOpenTag s := by
  have hc : itemOpenTag = '<' :: ("item>").toList := by decide
  rw [hc]
  exact lsafe_of_head_not_mem h

theorem generate_rss_item_decomp (now : Str) (e : EventDict) :
    generate_rss_item now e
      = ("  ").toList ++ itemOpenTag ++ rssItemMid now e ++ itemCloseTag := by
  have h1 : ("  <item>\n    <title>").toList
      = ("  ").toList ++ ("<item>").toList ++ ("\n    <title>").toList := by decide
  have h2 : ("</guid>\n  </item>").toList
      = ("</guid>\n  ").toList ++ ("</item>").toList := by decide
  simp only [generate_rss_item, rssItemMid, itemOpenTag, itemCloseTag, h1, h2,
    List.append_assoc]

theorem generate_rss_item_drop_two (now : Str) (e : EventDict) :
    (generate_rss_item now e).drop 2 = itemOpenTag ++ rssItemMid now e ++ itemCloseTag := by
  rw [generate_rss_item_decomp]
  have hsh : ("  ").toList ++ itemOpenTag ++ rssItemMid now e ++ itemCloseTag
      = ("  ").toList ++ (itemOpenTag ++ rssItemMid now e ++ itemCloseTag) := by
    simp [List.append_assoc]
  rw [hsh]
  exact List.drop_left (("  ").toList) _

theorem lsafe_close_rssItemMid {now : Str} (hnow : '<' ∉ now) (e : EventDict) :
    LSafe itemCloseTag (rssItemMid now e) := by
  have he1 := lsafe_close_of_not_mem (lt_not_mem_escape e.title.toList)
  have he2 := lsafe_close_of_not_mem (lt_not_mem_escape e.link.toList)
  have he3 := lsafe_close_of_not_mem (lt_not_mem_escape
    (("Registration Date: ").toList ++ escape e.date.toList))
  have hn := lsafe_close_of_not_mem hnow
  unfold rssItemMid
  exact lsafe_append (lsafe_append (lsafe_append (lsafe_append (lsafe_append
    (lsafe_append (lsafe_append (lsafe_append (lsafe_append (lsafe_append
      (by decide) he1) (by decide)) he2) (by decide)) he3) (by decide)) hn)
    (by decide)) he2) (by decide)

theorem lsafe_close_feedHeader {now : Str} (hnow : '<' ∉ now) (target_url : Str) :
    LSafe itemCloseTag (feedHeader target_url now) := by
  unfold feedHeader
  exact lsafe_append (lsafe_append (lsafe_append (lsafe_append (lsafe_append
    (lsafe_append (lsafe_append (lsafe_append (by decide)
      (lsafe_close_of_not_mem (lt_not_mem_escape _))) (by decide))
      (lsafe_close_of_not_mem (lt_not_mem_escape _))) (by decide))
      (lsafe_close_of_not_mem (lt_not_mem_escape _))) (by decide))
      (lsafe_close_of_not_mem hnow)) (by decide)

theorem lsafe_open_feedHeader {now : Str} (hnow : '<' ∉ now) (target_url : Str) :
    LSafe itemOpenTag (feedHeader target_url now) := by
  unfold feedHeader
  exact lsafe_append (lsafe_append (lsafe_append (lsafe_append (lsafe_append
    (lsafe_append (lsafe_append (lsafe_append (by decide)
      (lsafe_open_of_not_mem (lt_not_mem_escape _))) (by decide))
      (lsafe_open_of_not_mem (lt_not_mem_escape _))) (by decide))
      (lsafe_open_of_not_mem (lt_not_mem_escape _))) (by decide))
      (lsafe_open_of_not_mem hnow)) (by decide)

theorem parseExistingItems_shape (hdr : Str) (l : List (Str × Str))
    (hhdrC : LSafe itemCloseTag hdr) (hhdrO : LSafe itemOpenTag hdr)
    (hlC : ∀ pm ∈ l, LSafe itemCloseTag (pm.1 ++ itemOpenTag ++ pm.2))
    (hlO : ∀ pm ∈ l, LSafe itemOpenTag pm.1) :
    parseExistingItems (hdr ++ joinSep []
        ((l.map fun pm => pm.1 ++ itemOpenTag ++ pm.2).map fun c => c ++ itemCloseTag)
      ++ feedFooter)
      = l.map fun pm => itemOpenTag ++ pm.2 ++ itemCloseTag := by
  have hct : itemCloseTag = '<' :: ("/item>").toList := by decide
  have hsplit : splitOnSub '<' (("/item>").toList)
      (hdr ++ joinSep [] ((l.map fun pm => pm.1 ++ itemOpenTag ++ pm.2).map
        fun c => c ++ itemCloseTag) ++ feedFooter)
      = splitShape feedFooter hdr (l.map fun pm => pm.1 ++ itemOpenTag ++ pm.2) := by
    rw [hct]
    refine splitOnSub_splitShape (by decide) _ hdr (hct ▸ hhdrC) ?_
    intro c hc
    obtain ⟨pm, hpm, rfl⟩ := List.mem_map.mp hc
    exact hct ▸ hlC pm hpm
  unfold parseExistingItems
  rw [hsplit]
  exact filterMap_parse_splitShape l hdr hhdrO hlO

/-! ## C6: feed round-trip -/

/-- C6.  Publishing N events into an empty feed and re-feeding the produced
content to a second publish call with M further events yields a feed whose
entries are exactly the M new ones followed by the N old ones (N+M total):
the new entries come first, ordered most-recently-discovered (last in page
order) first, and the old entries keep their relative order.  Entries are
read back with the publisher's own boundary parser; each equals the rendered
item minus its two-space indentation. -/
theorem publish_round_trip (evs1 evs2 : List EventDict) (target_url now1 now2 : Str)
    (h1 : evs1 ≠ []) (h2 : evs2 ≠ []) (hn1 : '<' ∉ now1) (hn2 : '<' ∉ now2) :
    ∃ c1 c2,
      publishContent target_url now1 none evs1 = some c1 ∧
      publishContent target_url now2 (some c1) evs2 = some c2 ∧
      parseExistingItems c1
        = evs1.reverse.map (fun e => (generate_rss_item now1 e).drop 2) ∧
      parseExistingItems c2
        = evs2.reverse.map (fun e => (generate_rss_item now2 e).drop 2)
          ++ evs1.reverse.map (fun e => (generate_rss_item now1 e).drop 2) ∧
      (parseExistingItems c2).length = evs2.length + evs1.length := by
  have hpairs1C : ∀ pm ∈ (evs1.reverse.map fun e =>
        (((("  ").toList) : Str), rssItemMid now1 e)),
      LSafe itemCloseTag (pm.1 ++ itemOpenTag ++ pm.2) := by
    intro pm hpm
    obtain ⟨e, -, rfl⟩ := List.mem_map.mp hpm
    show LSafe itemCloseTag ((("  ").toList : Str) ++ itemOpenTag ++ rssItemMid now1 e)
    exact lsafe_append (by decide) (lsafe_close_rssItemMid hn1 e)
  have hpairs1O : ∀ pm ∈ (evs1.reverse.map fun e =>
        (((("  ").toList) : Str), rssItemMid now1 e)),
      LSafe itemOpenTag pm.1 := by
    intro pm hpm
    obtain ⟨e, -, rfl⟩ := List.mem_map.mp hpm
    show LSafe itemOpenTag ((("  ").toList : Str))
    exact (by decide)
  have hitems1 : evs1.reverse.map (generate_rss_item now1)
      = ((evs1.reverse.map fun e => (((("  ").toList) : Str), rssItemMid now1 e)).map
          fun pm => pm.1 ++ itemOpenTag ++ pm.2).map (fun c => c ++ itemCloseTag) := by
    rw [List.map_map, List.map_map]
    apply List.map_congr_left
    intro e _
    simp only [Function.comp]
    exact generate_rss_item_decomp now1 e
  have hparse1 : parseExistingItems (feedHeader target_url now1
        ++ joinSep [] (evs1.reverse.map (generate_rss_item now1)) ++ feedFooter)
      = evs1.reverse.map fun e => (generate_rss_item now1 e).drop 2 := by
    rw [hitems1, parseExistingItems_shape _ _ (lsafe_close_feedHeader hn1 target_url)
      (lsafe_open_feedHeader hn1 target_url) hpairs1C hpairs1O]
    rw [List.map_map]
    apply List.map_congr_left
    intro e _
    simp only [Function.comp]
    exact (generate_rss_item_drop_two now1 e).symm
  have hpairs2C : ∀ pm ∈ ((evs2.reverse.map fun e =>
          (((("  ").toList) : Str), rssItemMid now2 e))
        ++ (evs1.reverse.map fun e => (([] : Str), rssItemMid now1 e))),
      LSafe itemCloseTag (pm.1 ++ itemOpenTag ++ pm.2) := by
    intro pm hpm
    rcases List.mem_append.mp hpm with hpm | hpm
    · obtain ⟨e, -, rfl⟩ := List.mem_map.mp hpm
      show LSafe itemCloseTag ((("  ").toList : Str) ++ itemOpenTag ++ rssItemMid now2 e)
      exact lsafe_append (by decide) (lsafe_close_rssItemMid hn2 e)
    · obtain ⟨e, -, rfl⟩ := List.mem_map.mp hpm
      show LSafe itemCloseTag (([] : Str) ++ itemOpenTag ++ rssItemMid now1 e)
      exact lsafe_append (lsafe_append (lsafe_nil (by decide)) (by decide))
        (lsafe_close_rssItemMid hn1 e)
  have hpairs2O : ∀ pm ∈ ((evs2.reverse.map fun e =>
          (((("  ").toList) : Str), rssItemMid now2 e))
        ++ (evs1.reverse.map fun e => (([] : Str), rssItemMid now1 e))),
      LSafe itemOpenTag pm.1 := by
    intro pm hpm
    rcases List.mem_append.mp hpm with hpm | hpm
    · obtain ⟨e, -, rfl⟩ := List.mem_map.mp hpm
      show LSafe itemOpenTag ((("  ").toList : Str))
      exact (by decide)
    · obtain ⟨e, -, rfl⟩ := List.mem_map.mp hpm
      show LSafe itemOpenTag ([] : Str)
      exact lsafe_nil (by decide)
  have hitem2A : evs2.reverse.map (generate_rss_item now2)
      = ((evs2.reverse.map fun e => (((("  ").toList) : Str), rssItemMid now2 e)).map
          fun pm => pm.1 ++ itemOpenTag ++ pm.2).map (fun c => c ++ itemCloseTag) := by
    rw [List.map_map, List.map_map]
    apply List.map_congr_left
    intro e _
    simp only [Function.comp]
    exact generate_rss_item_decomp now2 e
  have hitem2B : (evs1.reverse.map fun e => (generate_rss_item now1 e).drop 2)
      = ((evs1.reverse.map fun e => (([] : Str), rssItemMid now1 e)).map
          fun pm => pm.1 ++ itemOpenTag ++ pm.2).map (fun c => c ++ itemCloseTag) := by
    rw [List.map_map, List.map_map]
    apply List.map_congr_left
    intro e _
    simp only [Function.comp]
    rw [generate_rss_item_drop_two now1 e]
    simp
  have hitems2 : evs2.reverse.map (generate_rss_item now2)
        ++ (evs1.reverse.map fun e => (generate_rss_item now1 e).drop 2)
      = (((evs2.reverse.map fun e => (((("  ").toList) : Str), rssItemMid now2 e))
          ++ (evs1.reverse.map fun e => (([] : Str), rssItemMid now1 e))).map
            fun pm => pm.1 ++ itemOpenTag ++ pm.2).map (fun c => c ++ itemCloseTag) := by
    rw [List.map_append, List.map_append, ← hitem2A, ← hitem2B]
  have hp2A : (evs2.reverse.map fun e =>
        (((("  ").toList) : Str), rssItemMid now2 e)).map
          (fun pm => itemOpenTag ++ pm.2 ++ itemCloseTag)
      = evs2.reverse.map (fun e => (generate_rss_item now2 e).drop 2) := by
    rw [List.map_map]
    apply List.map_congr_left
    intro e _
    simp only [Function.comp]
    exact (generate_rss_item_drop_two now2 e).symm
  have hp2B : (evs1.reverse.map fun e => (([] : Str), rssItemMid now1 e)).map
          (fun pm => itemOpenTag ++ pm.2 ++ itemCloseTag)
      = evs1.reverse.map (fun e => (generate_rss_item now1 e).drop 2) := by
    rw [List.map_map]
    apply List.map_congr_left
    intro e _
    simp only [Function.comp]
    rw [generate_rss_item_drop_two now1 e]
  have hparse2 : parseExistingItems (feedHeader target_url now2
        ++ joinSep [] (evs2.reverse.map (generate_rss_item now2)
          ++ (evs1.reverse.map fun e => (generate_rss_item now1 e).drop 2))
        ++ feedFooter)
      = evs2.reverse.map (fun e => (generate_rss_item now2 e).drop 2)
        ++ evs1.reverse.map (fun e => (generate_rss_item now1 e).drop 2) := by
    rw [hitems2, parseExistingItems_shape _ _ (lsafe_close_feedHeader hn2 target_url)
      (lsafe_open_feedHeader hn2 target_url) hpairs2C hpairs2O]
    rw [List.map_append, hp2A, hp2B]
  refine ⟨feedHeader target_url now1
      ++ joinSep [] (evs1.reverse.map (generate_rss_item now1)) ++ feedFooter,
    feedHeader target_url now2
      ++ joinSep [] (evs2.reverse.map (generate_rss_item now2)
        ++ parseExistingItems (feedHeader target_url now1
          ++ joinSep [] (evs1.reverse.map (generate_rss_item now1)) ++ feedFooter))
      ++ feedFooter,
    ?_, ?_, hparse1, ?_, ?_⟩
  · simp only [publishContent, if_neg h1, List.append_nil]
  · simp only [publishContent, if_neg h2]
  · rw [hparse1]
    exact hparse2
  · rw [hparse1, hparse2]
    simp

/-- Witness for C6: one event published, the feed re-fed, one further event
published. -/
theorem publish_round_trip_witness :
    ∃ c1 c2,
      publishContent (("https://t").toList) (("NOW1").toList) none
          [⟨"i1", "l1", "t1", "d1"⟩] = some c1 ∧
      publishContent (("https://t").toList) (("NOW2").toList) (some c1)
          [⟨"i2", "l2", "t2", "d2"⟩] = some c2 ∧
      parseExistingItems c1
        = ([⟨"i1", "l1", "t1", "d1"⟩] : List EventDict).reverse.map
            (fun e => (generate_rss_item (("NOW1").toList) e).drop 2) ∧
      parseExistingItems c2
        = ([⟨"i2", "l2", "t2", "d2"⟩] : List EventDict).reverse.map
            (fun e => (generate_rss_item (("NOW2").toList) e).drop 2)
          ++ ([⟨"i1", "l1", "t1", "d1"⟩] : List EventDict).reverse.map
            (fun e => (generate_rss_item (("NOW1").toList) e).drop 2) ∧
      (parseExistingItems c2).length
        = ([⟨"i2", "l2", "t2", "d2"⟩] : List EventDict).length
          + ([⟨"i1", "l1", "t1", "d1"⟩] : List EventDict).length :=
  publish_round_trip [⟨"i1", "l1", "t1", "d1"⟩] [⟨"i2", "l2", "t2", "d2"⟩]
    (("https://t").toList) (("NOW1").toList) (("NOW2").toList)
    (by decide) (by decide) (by decide) (by decide)

/-! ## C10: escaping in rendered feed entries -/

/-- Counterexample to C10 as stated: for an event whose date is `"<"` the
escaped date `escape "<" = "&lt;"` does not occur anywhere in the rendered
item — in particular the `<description>` element does not contain the
XML-escaped date, because the date is escaped twice (the element holds
`Registration Date: &amp;lt;`). -/
theorem rss_date_escape_counterexample :
    ¬ (escape (("<").toList) <:+:
        generate_rss_item (("Mon, 01 Jan 2024 00:00:00 +0000").toList)
          ⟨"https://x.org/reg", "https://x.org/reg", "Course", "<"⟩) := by
  decide

/-- C10 (amended).  Every rendered feed entry embeds `escape(title)` in
`<title>`, `escape(link)` in `<link>` and — byte-identical — in `<guid>`,
and in `<description>` the date escaped twice: `escape` applied to
`"Registration Date: " ++ escape(date)`.  `escape` replaces `&`, `<`, `>`
by `&amp;`, `&lt;`, `&gt;` character-wise, so none of the embedded field
renderings contains `<` or `>` and markup cannot be injected. -/
theorem rss_item_escaped_fields (e : EventDict) (now : Str) :
    ∃ t l d,
      generate_rss_item now e
        = ("  <item>\n    <title>").toList ++ t ++ ("</title>\n    <link>").toList ++ l
          ++ ("</link>\n    <description>").toList ++ d
          ++ ("</description>\n    <pubDate>").toList ++ now
          ++ ("</pubDate>\n    <guid isPermaLink=\"true\">").toList ++ l
          ++ ("</guid>\n  </item>").toList ∧
      t = escape e.title.toList ∧ l = escape e.link.toList ∧
      d = escape (("Registration Date: ").toList ++ escape e.date.toList) ∧
      '<' ∉ t ∧ '>' ∉ t ∧ '<' ∉ l ∧ '>' ∉ l ∧ '<' ∉ d ∧ '>' ∉ d ∧
      (∀ s : Str, escape s = s.flatMap escChar) :=
  ⟨escape e.title.toList, escape e.link.toList,
    escape (("Registration Date: ").toList ++ escape e.date.toList),
    rfl, rfl, rfl, rfl,
    lt_not_mem_escape _, gt_not_mem_escape _, lt_not_mem_escape _, gt_not_mem_escape _,
    lt_not_mem_escape _, gt_not_mem_escape _, escape_eq_flatMap⟩

end CheckEvents
